import Mathlib

/-!
Shallow embedding of `src/vcard_converter.py` (the function
`convert_vcard_3_to_4`) together with proofs settling the frozen claims
about its specification.

Python strings are modelled as Lean `String`s; the Python string
operations used by the converter (`strip`, `split`, `startswith`,
substring containment, the three `re.sub` calls) are re-implemented
below over `List Char`.  Python's `str.strip()` also removes a few
non-ASCII Unicode whitespace characters; only the ASCII whitespace
characters are modelled here.  Likewise `\d` in the regexes accepts
non-ASCII decimal digits, modelled here as ASCII digits.  The fallible
step (`next(...)` raising `StopIteration` when no version line exists)
is modelled with `Option`, `none` standing for the raised exception.
-/

namespace VCard

/-- Characters removed by Python `str.strip()` (ASCII fragment). -/
def pyIsWs (c : Char) : Bool :=
  c = ' ' || c = '\t' || c = '\n' || c = '\r' || c = '\x0b' || c = '\x0c'

/-- Python `str.strip()` on a character list. -/
def pyStripList (l : List Char) : List Char :=
  ((l.dropWhile pyIsWs).reverse.dropWhile pyIsWs).reverse

/-- Python `s.strip()`. -/
def pyStrip (s : String) : String := ⟨pyStripList s.data⟩

/-- Python `s.startswith(p)`. -/
def pyStartsWith (s p : String) : Bool := p.data.isPrefixOf s.data

/-- Python `s.split(sep)` for a one-character separator, on lists. -/
def splitOnChar (sep : Char) : List Char → List (List Char)
  | [] => [[]]
  | c :: r =>
    if c = sep then [] :: splitOnChar sep r
    else
      match splitOnChar sep r with
      | [] => [[c]]
      | h :: t => (c :: h) :: t

/-- Python `text.split('\n')`. -/
def pySplitLines (s : String) : List String :=
  (splitOnChar '\n' s.data).map fun l => ⟨l⟩

/-- Python `sep.join(parts)` for a one-character separator, on lists. -/
def joinChar (sep : Char) : List (List Char) → List Char
  | [] => []
  | [x] => x
  | x :: y :: t => x ++ sep :: joinChar sep (y :: t)

/-- Python `'\n'.join(lines)`. -/
def renderCard (c : List String) : String := ⟨joinChar '\n' (c.map String.data)⟩

/-- Python `'\n\n'.join(blocks)`: join with a blank line between blocks. -/
def joinBlocks : List String → String
  | [] => ""
  | [x] => x
  | x :: y :: t => x ++ "\n\n" ++ joinBlocks (y :: t)

/-- Substring test on character lists (Python `pat in s`). -/
def hasSub (pat : List Char) : List Char → Bool
  | [] => pat.isEmpty
  | s@(_ :: t) => pat.isPrefixOf s || hasSub pat t

/-- Python `pat in line` for strings. -/
def strContains (s pat : String) : Bool := hasSub pat.data s.data

/-- Characters of the base64 alphabet used by the photo-continuation
regex `[A-Za-z0-9+/=]`. -/
def isB64Char (c : Char) : Bool :=
  ('A' ≤ c && c ≤ 'Z') || ('a' ≤ c && c ≤ 'z') || ('0' ≤ c && c ≤ '9') ||
    c = '+' || c = '/' || c = '='

/-- The test `re.match(r'^[A-Za-z0-9+/=]', line)`: the first character of the
line is in the base64 alphabet (the pattern is unanchored at the end,
so only the first character is examined). -/
def b64First (line : String) : Bool :=
  match line.data with
  | [] => false
  | c :: _ => isB64Char c

/-- The photo-continuation test at line 100 of the source:
`line.startswith(' ') or re.match(r'^[A-Za-z0-9+/=]', line)`. -/
def photoCont (line : String) : Bool := pyStartsWith line " " || b64First line

/-- The Apple-specific markers of line 151:
`any(x in line for x in ['X-APPLE-', 'X-ABADR:', 'X-ABLabel:'])`. -/
def vendorMarker (line : String) : Bool :=
  strContains line "X-APPLE-" || strContains line "X-ABADR:" ||
    strContains line "X-ABLabel:"

/-! ### The three `re.sub` rewrites -/

/-- Skip a run of decimal digits (the greedy `\d+` after its first
character). -/
def skipDigits : List Char → List Char
  | [] => []
  | c :: r => if c.isDigit then skipDigits r else c :: r

/-- Matcher for `item\d+\.ADR` / `item\d+\.URL` at the head of the
list: on success returns the replacement (`word`) and the remainder
after the match. -/
def stepItem (word : List Char) (s : List Char) : Option (List Char × List Char) :=
  match s with
  | 'i' :: 't' :: 'e' :: 'm' :: d :: rest =>
    if d.isDigit then
      match skipDigits rest with
      | '.' :: rest2 =>
        if word.isPrefixOf rest2 then some (word, rest2.drop word.length)
        else none
      | _ => none
    else none
  | _ => none

/-- Take the maximal run of non-`';'` characters (the greedy `[^;]+`). -/
def takeNonSemi : List Char → List Char × List Char
  | [] => ([], [])
  | c :: rest =>
    if c = ';' then ([], c :: rest)
    else
      let p := takeNonSemi rest
      (c :: p.1, p.2)

/-- Case comparison used by `re.IGNORECASE` on ASCII letters. -/
def lcEq (a b : Char) : Bool := a.toLower = b.toLower

/-- Matcher for `type=([^;]+)` (ignoring case) at the head of the list:
the replacement is `TYPE=` followed by the untouched group. -/
def stepTypeEq (s : List Char) : Option (List Char × List Char) :=
  match s with
  | c1 :: c2 :: c3 :: c4 :: c5 :: rest =>
    if lcEq c1 't' && lcEq c2 'y' && lcEq c3 'p' && lcEq c4 'e' && c5 = '=' then
      match rest with
      | [] => none
      | c :: _ =>
        if c = ';' then none
        else
          let p := takeNonSemi rest
          some ("TYPE=".data ++ p.1, p.2)
    else none
  | _ => none

/-- The `re.sub` driver: scan left to right, replace each non-overlapping
match, continue after the match.  `fuel` bounds the recursion; every
match of the steps above consumes at least one character, so passing
the length of the list makes the bound exact. -/
def reSubAux (step : List Char → Option (List Char × List Char)) :
    Nat → List Char → List Char
  | 0, s => s
  | Nat.succ n, s =>
    match s with
    | [] => []
    | c :: rest =>
      match step s with
      | some (rep, rem) => rep ++ reSubAux step n rem
      | none => c :: reSubAux step n rest

/-- Python `re.sub(pat, rep, line)` for one of the three patterns. -/
def reSub (step : List Char → Option (List Char × List Char)) (s : String) :
    String := ⟨reSubAux step s.data.length s.data⟩

/-- Python `re.sub(r'item\d+\.ADR', 'ADR', line)`. -/
def subItemAdr (s : String) : String := reSub (stepItem "ADR".data) s

/-- Python `re.sub(r'item\d+\.URL', 'URL', line)`. -/
def subItemUrl (s : String) : String := reSub (stepItem "URL".data) s

/-- Python `re.sub(r'type=([^;]+)', r'TYPE=\1', line, flags=re.IGNORECASE)`. -/
def subTypeEq (s : String) : String := reSub stepTypeEq s

/-! ### The N-field normalization (lines 143-148) -/

/-- Python `line.split(':')[1]`: the text between the first and the
second colon (the whole tail when there is no second colon). -/
def nValueL (l : List Char) : List Char := (splitOnChar ':' l).getD 1 []

/-- The semicolon components of the (code's) N-field value. -/
def nCompsOf (line : String) : List (List Char) :=
  splitOnChar ';' (nValueL line.data)

/-- The loop `while parts and not parts[-1]: parts.pop()`: drop trailing empty
components. -/
def dropTrailingEmptyL (ps : List (List Char)) : List (List Char) :=
  (ps.reverse.dropWhile List.isEmpty).reverse

/-- Lines 144-148: re-emit the N line with trailing empty components
dropped and the rest padded to 5 components (`['']*(5-len(parts))` is
empty when more than 5 components remain). -/
def nPad (line : String) : String :=
  let ps := dropTrailingEmptyL (nCompsOf line)
  ⟨'N' :: ':' :: joinChar ';' (ps ++ List.replicate (5 - ps.length) [])⟩

/-! ### Record classification (lines 80-87) -/

/-- The lookup `next((line for line in lines if line.startswith('N:')), '')`,
with `None`-like absence made explicit. -/
def nFieldOf (lines : List String) : Option String :=
  lines.find? (pyStartsWith · "N:")

/-- Python `n_parts`: the semicolon components of the first N-line's value,
`[]` when there is no N-line. -/
def nPartsOf (lines : List String) : List (List Char) :=
  match nFieldOf lines with
  | some nf => splitOnChar ';' (nValueL nf.data)
  | none => []

/-- Python `has_empty_n = all(not part.strip() for part in n_parts)`. -/
def hasEmptyN (lines : List String) : Bool :=
  (nPartsOf lines).all fun p => pyStripList p = []

/-- Python `any(line.startswith('X-ABShowAs:COMPANY') for line in lines)`. -/
def hasShowAs (lines : List String) : Bool :=
  lines.any (pyStartsWith · "X-ABShowAs:COMPANY")

/-- Python `any(line.startswith('ORG:') for line in lines)`. -/
def hasOrgField (lines : List String) : Bool :=
  lines.any (pyStartsWith · "ORG:")

/-- Python `is_org` (lines 80-87). -/
def isOrg (lines : List String) : Bool :=
  hasShowAs lines || (hasEmptyN lines && hasOrgField lines)

/-! ### The per-line rewrite pass (lines 89-154) -/

/-- The `settings` dictionary: two boolean flags. -/
structure Settings where
  remove_fn : Bool
  remove_photos : Bool
  deriving DecidableEq

/-- The cumulative reassignments of `line` in the loop body
(lines 122-148): ADR, TEL, EMAIL, URL and N rewrites, each testing the
current value of `line`. -/
def applyRewrites (line : String) : String :=
  let l1 := if strContains line "ADR" then subTypeEq (subItemAdr line) else line
  let l2 := if pyStartsWith l1 "TEL;" then subTypeEq l1 else l1
  let l3 := if pyStartsWith l2 "EMAIL;" then subTypeEq l2 else l2
  let l4 := if pyStartsWith l3 "item" then subItemUrl l3 else l3
  if pyStartsWith l4 "N:" then nPad l4 else l4

/-- One iteration of the loop body (lines 89-154), as a function from
the `skip_photo` flag and the line to the new flag and the emitted
line (`none` when the line is dropped). -/
def lineStep (st : Settings) (skip : Bool) (line : String) : Bool × Option String :=
  if pyStrip line = "" ∨ pyStartsWith line "BEGIN:VCARD" = true then
    (skip, none)
  else if st.remove_photos = true ∧ pyStartsWith line "PHOTO;" = true then
    (true, none)
  else if st.remove_photos = true ∧ skip = true ∧ photoCont line = true then
    (skip, none)
  else
    -- past this point `skip_photo` has been reset to `False` whenever
    -- `settings['remove_photos']` holds
    let skip2 := if st.remove_photos = true then false else skip
    if st.remove_fn = true ∧ pyStartsWith line "FN:" = true then (skip2, none)
    else if pyStartsWith line "PRODID:-//Apple Inc.//" = true then (skip2, none)
    else if pyStartsWith line "VERSION:" = true then (skip2, some "VERSION:4.0")
    else if pyStartsWith line "X-ABShowAs:COMPANY" = true then (skip2, none)
    else
      let l5 := applyRewrites line
      if vendorMarker l5 = true then (skip2, none) else (skip2, some l5)

/-- The whole rewrite pass over the record's lines. -/
def runLines (st : Settings) : Bool → List String → List String
  | _, [] => []
  | skip, l :: ls =>
    match lineStep st skip l with
    | (skip2, some o) => o :: runLines st skip2 ls
    | (skip2, none) => runLines st skip2 ls

/-- Lines 157-159: `new_lines.insert(version_index + 1, 'KIND:org')`
after the first line starting with `VERSION:`; `none` models the
`StopIteration` raised by `next(...)` when no such line exists. -/
def insertAfterVersion : List String → Option (List String)
  | [] => none
  | l :: ls =>
    if pyStartsWith l "VERSION:" = true then some (l :: "KIND:org" :: ls)
    else
      match insertAfterVersion ls with
      | some r => some (l :: r)
      | none => none

/-- Lines 74-163: transform one record block (given as its stripped
line list) into the output block's line list.  `none` models the
`StopIteration` escaping from line 158. -/
def transformVcard (st : Settings) (lines : List String) : Option (List String) :=
  let nl := "BEGIN:VCARD" :: runLines st false lines
  let nl2? := if isOrg lines = true then insertAfterVersion nl else some nl
  match nl2? with
  | none => none
  | some nl2 =>
    some (if pyStartsWith (nl2.getLastD "") "END:VCARD" = true then nl2
          else nl2 ++ ["END:VCARD"])

/-! ### The record splitter (lines 47-65) -/

/-- Close an open buffer: append `END:VCARD` unless the last line
already starts with it (lines 54-55 and 63-64). -/
def closeCard (c : List String) : List String :=
  if pyStartsWith (c.getLastD "") "END:VCARD" = true then c else c ++ ["END:VCARD"]

/-- The splitting loop (lines 51-65).  `cur` is `current_vcard`; it is
initialized to the empty list, so the `elif current_vcard is not None`
branch of the source is always taken. -/
def splitAux (cur : List String) : List String → List (List String)
  | [] => if cur.isEmpty then [] else [closeCard cur]
  | l :: ls =>
    if pyStartsWith l "BEGIN:VCARD" = true then
      if cur.isEmpty then splitAux [l] ls
      else closeCard cur :: splitAux [l] ls
    else splitAux (cur ++ [l]) ls

/-- The splitter, lines 47-65, starting from `input_text.strip().split('\n')`. -/
def splitVcards (input : String) : List (List String) :=
  splitAux [] (pySplitLines (pyStrip input))

/-- The lines a raw record presents to the transformer:
`vcard.strip().split('\n')` (line 74). -/
def cardLines (c : List String) : List String :=
  pySplitLines (pyStrip (renderCard c))

/-- Lines 69-165: transform each record in order, skipping blank
blocks (line 70); the first raised exception aborts the whole run. -/
def processCards (st : Settings) : List (List String) → Option (List String)
  | [] => some []
  | c :: cs =>
    if pyStrip (renderCard c) = "" then processCards st cs
    else
      match transformVcard st (cardLines c) with
      | none => none
      | some nl =>
        match processCards st cs with
        | none => none
        | some rest => some (renderCard nl :: rest)

/-- Python `convert_vcard_3_to_4` (lines 45-167): `none` models an escaping
exception. -/
def convert_vcard_3_to_4 (input : String) (st : Settings) : Option String :=
  match processCards st (splitVcards input) with
  | none => none
  | some blocks => some (joinBlocks blocks)

/-! ### Definitions following the spec's words (for refutation only)

These two definitions transcribe the spec's phrasing, to be compared
with the code-derived definitions above. -/

/-- The spec's photo-continuation test: a line "starting with
whitespace, or consisting solely of base64-alphabet characters". -/
def specPhotoCont (line : String) : Bool :=
  (match line.data with
   | c :: _ => pyIsWs c
   | [] => false) || line.data.all isB64Char

/-- The spec's `structuredNameIsEmpty`: every component of the
structured-name field's value (everything after `N:`), split on `;`,
is empty or whitespace-only; a record without the field counts as
empty. -/
def specStructuredNameIsEmpty (lines : List String) : Bool :=
  match nFieldOf lines with
  | some nf => (splitOnChar ';' (nf.data.drop 2)).all fun p => pyStripList p = []
  | none => true

/-- All suffixes of the end marker (used to show no rewrite can
manufacture an `END:VCARD` prefix). -/
def endTails : List (List Char) := List.tails "END:VCARD".data

/-! ## Helper lemmas -/

theorem pyStartsWith_iff {s p : String} :
    pyStartsWith s p = true ↔ p.data <+: s.data := by
  simp [pyStartsWith]

/-- A string whose first character is not whitespace does not strip to
the empty string. -/
theorem pyStrip_ne_empty {s : String} {c : Char} {t : List Char}
    (hs : s.data = c :: t) (hc : pyIsWs c = false) : ¬ pyStrip s = "" := by
  intro h
  have h2 : pyStripList s.data = [] := by
    have h3 := congrArg String.data h
    simpa [pyStrip] using h3
  rw [hs] at h2
  unfold pyStripList at h2
  rw [List.dropWhile_cons, if_neg (by simp [hc])] at h2
  have h3 := List.reverse_eq_nil_iff.mp h2
  rw [List.dropWhile_eq_nil_iff] at h3
  have h4 := h3 c (by simp)
  simp [hc] at h4

/-- Skipping an element the predicate rejects does not change `find?`. -/
theorem find?_middle {α : Type} (p : α → Bool) (x : α) (hx : p x = false) :
    ∀ pre post : List α, List.find? p (pre ++ x :: post) = List.find? p (pre ++ post)
  | [], post => by simp [List.find?, hx]
  | a :: pre, post => by
    cases hpa : p a <;>
      simp [List.find?, hpa, find?_middle p x hx pre post]

/-! ## Theorems settling the claims -/

/-- C1 counterexample: on a record carrying the show-as-company marker
but no version line, the conversion raises (`next(...)` at line 158
finds no insertion point), so the core is not total: the claim that it
returns a string on every text input is false. -/
theorem c1_counterexample :
    convert_vcard_3_to_4 "BEGIN:VCARD\nX-ABShowAs:COMPANY" ⟨true, true⟩ = none := by
  decide

/-- C2 counterexample: with `RemovePhotos` set, after a photo start the
code drops any line whose first character is in the base64 alphabet
(`TEL;type=CELL:555` is dropped although it does not consist solely of
base64 characters), while a line starting with a tab is kept (although
it starts with whitespace); both halves of the claimed continuation
test are refuted by this record. -/
theorem c2_counterexample :
    transformVcard ⟨false, true⟩
        ["BEGIN:VCARD", "VERSION:3.0", "PHOTO;ENCODING=b:ABC",
         "TEL;type=CELL:555", "\tfoo", "END:VCARD"] =
      some ["BEGIN:VCARD", "VERSION:4.0", "\tfoo", "END:VCARD"] ∧
    specPhotoCont "TEL;type=CELL:555" = false ∧
    specPhotoCont "\tfoo" = true := by
  decide

/-- C3 counterexample: the line `item3.X-ABADR:us` contains the
address token `ADR`, is handled by the address rule, but is then
dropped by the vendor-extension rule (the rewrite rules do not
short-circuit), contradicting the claim that every ADR line is
emitted. -/
theorem c3_counterexample :
    transformVcard ⟨false, false⟩
        ["BEGIN:VCARD", "VERSION:3.0", "item3.X-ABADR:us", "END:VCARD"] =
      some ["BEGIN:VCARD", "VERSION:4.0", "END:VCARD"] ∧
    strContains "item3.X-ABADR:us" "ADR" = true := by
  decide

/-- C4: evaluation of the code at the failing input `"hello"`: the
input contains zero begin-marker lines, yet the output consists of one
record block (the initial buffer is a list, never `None`, so stray
leading lines accumulate into a synthesized record). -/
theorem c4_code_eval :
    convert_vcard_3_to_4 "hello" ⟨true, true⟩ =
      some "BEGIN:VCARD\nhello\nEND:VCARD" ∧
    (pySplitLines (pyStrip "hello")).all
      (fun l => !pyStartsWith l "BEGIN:VCARD") = true := by
  decide

/-- C5: evaluation of the code at the failing input: the line `junk`
preceding the first begin marker is not dropped; it is closed into a
record block of its own and appears in the output. -/
theorem c5_code_eval :
    convert_vcard_3_to_4 "junk\nBEGIN:VCARD\nVERSION:3.0\nEND:VCARD" ⟨true, true⟩ =
      some "BEGIN:VCARD\njunk\nEND:VCARD\n\nBEGIN:VCARD\nVERSION:4.0\nEND:VCARD" := by
  decide

/-- C6 counterexample: a record that carries the marker and already
contains a `KIND:org` line ends up with two such lines (the
pre-existing one passes through, and one more is inserted), refuting
"exactly one". -/
theorem c6_counterexample :
    transformVcard ⟨true, true⟩
        ["BEGIN:VCARD", "VERSION:3.0", "KIND:org", "X-ABShowAs:COMPANY",
         "END:VCARD"] =
      some ["BEGIN:VCARD", "VERSION:4.0", "KIND:org", "KIND:org", "END:VCARD"] ∧
    (["BEGIN:VCARD", "VERSION:4.0", "KIND:org", "KIND:org",
      "END:VCARD"].count "KIND:org") = 2 := by
  decide

/-- C7 counterexample: an `N:` line with six non-empty components is
emitted with six components (`['']*(5-len(parts))` is empty when more
than 5 components remain, and nothing is truncated), refuting
"exactly 5 components... including more than 5". -/
theorem c7_counterexample :
    transformVcard ⟨false, false⟩
        ["BEGIN:VCARD", "VERSION:3.0", "N:a;b;c;d;e;f", "END:VCARD"] =
      some ["BEGIN:VCARD", "VERSION:4.0", "N:a;b;c;d;e;f", "END:VCARD"] ∧
    (nCompsOf "N:a;b;c;d;e;f").length = 6 := by
  decide

/-- C8 counterexample: for the record containing `N:;;:x` the code
takes only the text between the first and second colon (`;;`), so it
classifies the record as an organization, although the structured
name's full value `;;:x` has a non-blank component, so the claimed
emptiness test (and hence the claimed iff) fails. -/
theorem c8_counterexample :
    isOrg ["BEGIN:VCARD", "VERSION:3.0", "N:;;:x", "ORG:Acme", "END:VCARD"] = true ∧
    specStructuredNameIsEmpty
      ["BEGIN:VCARD", "VERSION:3.0", "N:;;:x", "ORG:Acme", "END:VCARD"] = false ∧
    hasShowAs ["BEGIN:VCARD", "VERSION:3.0", "N:;;:x", "ORG:Acme", "END:VCARD"] = false := by
  decide

/-- C10: a structured-name line carrying parameters, i.e. starting with
`N;` rather than `N:`, is not normalized (the `N:` rule does not fire)
and is ignored by the classification's N-field lookup; when no other
rule matches it (it contains no address token and no vendor marker), it
passes through to the output unchanged. -/
theorem c10_n_with_params_passthrough (st : Settings) (line : String)
    (h1 : pyStartsWith line "N;" = true)
    (h2 : strContains line "ADR" = false)
    (h3 : vendorMarker line = false) :
    lineStep st false line = (false, some line) ∧
    ∀ pre post, nFieldOf (pre ++ line :: post) = nFieldOf (pre ++ post) := by
  obtain ⟨u, hu⟩ := pyStartsWith_iff.mp h1
  have hd : line.data = 'N' :: ';' :: u := by rw [← hu]; rfl
  have hblank := pyStrip_ne_empty hd (by decide)
  have hBEGIN : pyStartsWith line "BEGIN:VCARD" = false := by
    simp [pyStartsWith, hd, List.isPrefixOf_cons₂]
  have hPHOTO : pyStartsWith line "PHOTO;" = false := by
    simp [pyStartsWith, hd, List.isPrefixOf_cons₂]
  have hFN : pyStartsWith line "FN:" = false := by
    simp [pyStartsWith, hd, List.isPrefixOf_cons₂]
  have hPRODID : pyStartsWith line "PRODID:-//Apple Inc.//" = false := by
    simp [pyStartsWith, hd, List.isPrefixOf_cons₂]
  have hVERSION : pyStartsWith line "VERSION:" = false := by
    simp [pyStartsWith, hd, List.isPrefixOf_cons₂]
  have hXAB : pyStartsWith line "X-ABShowAs:COMPANY" = false := by
    simp [pyStartsWith, hd, List.isPrefixOf_cons₂]
  have hTEL : pyStartsWith line "TEL;" = false := by
    simp [pyStartsWith, hd, List.isPrefixOf_cons₂]
  have hEMAIL : pyStartsWith line "EMAIL;" = false := by
    simp [pyStartsWith, hd, List.isPrefixOf_cons₂]
  have hITEM : pyStartsWith line "item" = false := by
    simp [pyStartsWith, hd, List.isPrefixOf_cons₂]
  have hN : pyStartsWith line "N:" = false := by
    simp [pyStartsWith, hd, List.isPrefixOf_cons₂]
  constructor
  · simp [lineStep, applyRewrites, hblank, hBEGIN, hPHOTO, hFN, hPRODID,
      hVERSION, hXAB, hTEL, hEMAIL, hITEM, hN, h2, h3]
  · intro pre post
    exact find?_middle _ line hN pre post

/-- C10 witness: a concrete parameterized structured-name line passes
through untouched and is invisible to the N-field lookup. -/
theorem c10_witness :
    pyStartsWith "N;CHARSET=UTF-8:Smith;John" "N;" = true ∧
    strContains "N;CHARSET=UTF-8:Smith;John" "ADR" = false ∧
    vendorMarker "N;CHARSET=UTF-8:Smith;John" = false ∧
    lineStep ⟨true, true⟩ false "N;CHARSET=UTF-8:Smith;John" =
      (false, some "N;CHARSET=UTF-8:Smith;John") ∧
    nFieldOf (["BEGIN:VCARD"] ++ "N;CHARSET=UTF-8:Smith;John" :: ["END:VCARD"]) =
      nFieldOf (["BEGIN:VCARD"] ++ ["END:VCARD"]) :=
  ⟨by decide, by decide, by decide,
    (c10_n_with_params_passthrough ⟨true, true⟩ _ (by decide) (by decide)
      (by decide)).1,
    (c10_n_with_params_passthrough ⟨true, true⟩ _ (by decide) (by decide)
      (by decide)).2 ["BEGIN:VCARD"] ["END:VCARD"]⟩

/-- The first character of a string determines `b64First` whenever a
known prefix pins that character down. -/
theorem b64First_eq_head {l p : String} {c : Char} {q : List Char}
    (hp : p.data = c :: q) (h : pyStartsWith l p = true) :
    b64First l = isB64Char c := by
  obtain ⟨u, hu⟩ := pyStartsWith_iff.mp h
  rw [hp] at hu
  simp [b64First, ← hu]

/-- While `skip_photo` is set (and `remove_photos` holds), a line that
is blank, starts with a space, or starts with a base64 character is
dropped and the flag stays set. -/
theorem lineStep_skip_drop (st : Settings) (hrp : st.remove_photos = true)
    (d : String)
    (hd : pyStrip d = "" ∨ pyStartsWith d " " = true ∨ b64First d = true) :
    lineStep st true d = (true, none) := by
  by_cases hb : pyStrip d = ""
  · simp [lineStep, hb]
  · by_cases hP : pyStartsWith d "PHOTO;" = true
    · simp [lineStep, hb, hrp, hP]
    · have hcont : photoCont d = true := by
        rcases hd with h | h | h
        · exact absurd h hb
        · simp [photoCont, h]
        · simp [photoCont, h]
      simp [lineStep, hb, hrp, hP, hcont]

/-- While `skip_photo` is set (and `remove_photos` holds), the first
line that is not a continuation line is processed exactly as it would
be with the flag clear. -/
theorem lineStep_skip_reset (st : Settings) (hrp : st.remove_photos = true)
    (l : String) (hl1 : ¬ pyStrip l = "") (hl2 : pyStartsWith l " " = false)
    (hl3 : b64First l = false) :
    lineStep st true l = lineStep st false l := by
  have hBEGIN : pyStartsWith l "BEGIN:VCARD" = false := by
    cases hB : pyStartsWith l "BEGIN:VCARD" with
    | false => rfl
    | true =>
      have hh := @b64First_eq_head l "BEGIN:VCARD" 'B' _ rfl hB
      rw [hl3] at hh
      exact absurd hh.symm (by decide)
  have hPHOTO : pyStartsWith l "PHOTO;" = false := by
    cases hB : pyStartsWith l "PHOTO;" with
    | false => rfl
    | true =>
      have hh := @b64First_eq_head l "PHOTO;" 'P' _ rfl hB
      rw [hl3] at hh
      exact absurd hh.symm (by decide)
  have hcont : photoCont l = false := by simp [photoCont, hl2, hl3]
  simp [lineStep, hl1, hBEGIN, hPHOTO, hcont, hrp]

/-- The rewrite pass after a photo start: continuation lines are
dropped, and from the first non-continuation line on, the pass behaves
as if the photo had never been seen. -/
theorem runLines_skip_photo (st : Settings) (hrp : st.remove_photos = true) :
    ∀ ds : List String,
      (∀ d ∈ ds, pyStrip d = "" ∨ pyStartsWith d " " = true ∨ b64First d = true) →
      ∀ l : String, ¬ pyStrip l = "" → pyStartsWith l " " = false →
        b64First l = false → ∀ rest : List String,
          runLines st true (ds ++ l :: rest) = runLines st false (l :: rest)
  | [], _, l, hl1, hl2, hl3, rest => by
    show runLines st true (l :: rest) = runLines st false (l :: rest)
    unfold runLines
    rw [lineStep_skip_reset st hrp l hl1 hl2 hl3]
  | d :: ds, hd, l, hl1, hl2, hl3, rest => by
    show runLines st true (d :: (ds ++ l :: rest)) = runLines st false (l :: rest)
    unfold runLines
    rw [lineStep_skip_drop st hrp d (hd d (by simp))]
    exact runLines_skip_photo st hrp ds (fun x hx => hd x (by simp [hx]))
      l hl1 hl2 hl3 rest

/-- C2 (amended): when `RemovePhotos` is set, a photo start line is
dropped together with exactly those immediately following lines that
are blank, start with a space, or whose first character is in the
base64 alphabet; the first following line that is none of these — and
every line after it — is processed by the normal per-line rules. -/
theorem c2_photo_skip (st : Settings) (hrp : st.remove_photos = true)
    (p : String) (hp : pyStartsWith p "PHOTO;" = true)
    (dropped : List String)
    (hd : ∀ d ∈ dropped,
      pyStrip d = "" ∨ pyStartsWith d " " = true ∨ b64First d = true)
    (l : String) (hl1 : ¬ pyStrip l = "") (hl2 : pyStartsWith l " " = false)
    (hl3 : b64First l = false) (rest : List String) :
    runLines st false (p :: (dropped ++ l :: rest)) =
      runLines st false (l :: rest) := by
  obtain ⟨u, hu⟩ := pyStartsWith_iff.mp hp
  have hpd : p.data = 'P' :: 'H' :: 'O' :: 'T' :: 'O' :: ';' :: u := by
    rw [← hu]; rfl
  have hblank := pyStrip_ne_empty hpd (by decide)
  have hBEGIN : pyStartsWith p "BEGIN:VCARD" = false := by
    simp [pyStartsWith, hpd, List.isPrefixOf_cons₂]
  have hstep : lineStep st false p = (true, none) := by
    simp [lineStep, hblank, hBEGIN, hrp, hp]
  unfold runLines
  rw [hstep]
  exact runLines_skip_photo st hrp dropped hd l hl1 hl2 hl3 rest

/-- C2 witness: concrete instance of the photo-skip description. -/
theorem c2_witness :
    pyStartsWith "PHOTO;ENCODING=b:AB" "PHOTO;" = true ∧
    b64First "ABCD" = true ∧
    runLines ⟨false, true⟩ false
        ("PHOTO;ENCODING=b:AB" :: (["ABCD", " xyz", ""] ++ "\tfoo" :: ["END:VCARD"])) =
      runLines ⟨false, true⟩ false ("\tfoo" :: ["END:VCARD"]) :=
  ⟨by decide, by decide,
    c2_photo_skip ⟨false, true⟩ rfl "PHOTO;ENCODING=b:AB" (by decide)
      ["ABCD", " xyz", ""] (by decide) "\tfoo" (by decide) (by decide)
      (by decide) ["END:VCARD"]⟩

/-- C3 (amended): a line containing the address token that reaches the
rewrite rules (none of the earlier dropping rules applies to it) is
rewritten by the address rule first, but the rules do not
short-circuit: the rewritten line continues through the remaining
rewrite rules and is emitted only when the result carries no
vendor-extension marker — a line containing `X-ABADR:` is dropped. -/
theorem c3_adr_rule (st : Settings) (line : String)
    (h1 : strContains line "ADR" = true)
    (h2 : ¬ pyStrip line = "")
    (h3 : pyStartsWith line "BEGIN:VCARD" = false)
    (h4 : pyStartsWith line "PHOTO;" = false)
    (h5 : pyStartsWith line "FN:" = false)
    (h6 : pyStartsWith line "PRODID:-//Apple Inc.//" = false)
    (h7 : pyStartsWith line "VERSION:" = false)
    (h8 : pyStartsWith line "X-ABShowAs:COMPANY" = false) :
    lineStep st false line =
      (false, if vendorMarker (applyRewrites line) = true then none
              else some (applyRewrites line)) ∧
    applyRewrites line =
      (let l1 := subTypeEq (subItemAdr line)
       let l2 := if pyStartsWith l1 "TEL;" then subTypeEq l1 else l1
       let l3 := if pyStartsWith l2 "EMAIL;" then subTypeEq l2 else l2
       let l4 := if pyStartsWith l3 "item" then subItemUrl l3 else l3
       if pyStartsWith l4 "N:" then nPad l4 else l4) := by
  constructor
  · by_cases hv : vendorMarker (applyRewrites line) = true
    · simp [lineStep, h2, h3, h4, h5, h6, h7, h8, hv]
    · simp [lineStep, h2, h3, h4, h5, h6, h7, h8, hv]
  · simp [applyRewrites, h1]

/-- C3 witness: a concrete grouped address line is rewritten by the
address rule and emitted. -/
theorem c3_witness :
    strContains "item1.ADR;type=HOME:;;123 St" "ADR" = true ∧
    lineStep ⟨true, true⟩ false "item1.ADR;type=HOME:;;123 St" =
      (false,
        if vendorMarker (applyRewrites "item1.ADR;type=HOME:;;123 St") = true
        then none else some (applyRewrites "item1.ADR;type=HOME:;;123 St")) :=
  ⟨by decide,
    (c3_adr_rule ⟨true, true⟩ "item1.ADR;type=HOME:;;123 St" (by decide)
      (by decide) (by decide) (by decide) (by decide) (by decide) (by decide)
      (by decide)).1⟩

theorem splitOnChar_ne_nil (sep : Char) : ∀ l, splitOnChar sep l ≠ []
  | [] => by simp [splitOnChar]
  | c :: r => by
    by_cases hc : c = sep
    · simp [splitOnChar, hc]
    · cases hsp : splitOnChar sep r <;> simp [splitOnChar, hc, hsp]

/-- Splitting a list free of the separator yields a single component. -/
theorem splitOnChar_no_sep {sep : Char} : ∀ {l}, sep ∉ l → splitOnChar sep l = [l]
  | [], _ => rfl
  | c :: r, h => by
    have hc : ¬ c = sep := fun he => h (he ▸ List.mem_cons_self c r)
    have hr : sep ∉ r := fun hm => h (List.mem_cons_of_mem c hm)
    simp [splitOnChar, hc, splitOnChar_no_sep hr]

/-- The value `line.split(':')[1]` of an `N:` line whose tail contains
no further colon is exactly that tail. -/
theorem nValueL_eq {rest : List Char} (h : ':' ∉ rest) :
    nValueL ('N' :: ':' :: rest) = rest := by
  simp [nValueL, splitOnChar, splitOnChar_no_sep h]

/-- C8 (amended): on every record whose structured-name line has no
colon inside its value, the code's emptiness test agrees with the
spec's `structuredNameIsEmpty`, and a record without the
show-as-company marker is classified as an organization exactly when
that structured name is empty and an `ORG:` line is present.  (The code
reads only the text between the first and second colon as the value;
the two notions diverge once the value itself contains a colon.) -/
theorem c8_emptiness (lines : List String)
    (h : ∀ nf, nFieldOf lines = some nf → ':' ∉ nf.data.drop 2) :
    hasEmptyN lines = specStructuredNameIsEmpty lines ∧
    (hasShowAs lines = false →
      (isOrg lines = true ↔
        specStructuredNameIsEmpty lines = true ∧ hasOrgField lines = true)) := by
  have key : hasEmptyN lines = specStructuredNameIsEmpty lines := by
    unfold hasEmptyN specStructuredNameIsEmpty nPartsOf
    cases hf : nFieldOf lines with
    | none => simp
    | some nf =>
      have hsw : pyStartsWith nf "N:" = true := by
        have h6 : List.find? (fun l => pyStartsWith l "N:") lines = some nf := hf
        have h7 := List.find?_some h6
        exact h7
      obtain ⟨u, hu⟩ := pyStartsWith_iff.mp hsw
      have hd : nf.data = 'N' :: ':' :: u := by rw [← hu]; rfl
      have hcol : ':' ∉ u := by
        have h5 := h nf hf
        rw [hd] at h5
        simpa using h5
      simp [hd, nValueL_eq hcol]
  refine ⟨key, fun hm => ?_⟩
  unfold isOrg
  rw [hm, key]
  simp

/-- C8 witness: the spec's own example record `N:;;;;` plus `ORG:Acme`
is recognized as an organization by both readings. -/
theorem c8_witness :
    hasEmptyN ["BEGIN:VCARD", "N:;;;;", "ORG:Acme", "END:VCARD"] =
      specStructuredNameIsEmpty ["BEGIN:VCARD", "N:;;;;", "ORG:Acme", "END:VCARD"] ∧
    (isOrg ["BEGIN:VCARD", "N:;;;;", "ORG:Acme", "END:VCARD"] = true ↔
      specStructuredNameIsEmpty ["BEGIN:VCARD", "N:;;;;", "ORG:Acme", "END:VCARD"] = true ∧
      hasOrgField ["BEGIN:VCARD", "N:;;;;", "ORG:Acme", "END:VCARD"] = true) := by
  have h : ∀ nf, nFieldOf ["BEGIN:VCARD", "N:;;;;", "ORG:Acme", "END:VCARD"] = some nf →
      ':' ∉ nf.data.drop 2 := by
    intro nf hnf
    have h0 : nFieldOf ["BEGIN:VCARD", "N:;;;;", "ORG:Acme", "END:VCARD"] =
        some "N:;;;;" := by decide
    rw [h0] at hnf
    injection hnf with h1
    rw [← h1]
    decide
  exact ⟨(c8_emptiness _ h).1, (c8_emptiness _ h).2 (by decide)⟩

/-- Components produced by `split` never contain the separator. -/
theorem not_mem_of_mem_splitOnChar {sep : Char} :
    ∀ {l x}, x ∈ splitOnChar sep l → sep ∉ x
  | [], x, hx => by
    simp [splitOnChar] at hx
    simp [hx]
  | c :: r, x, hx => by
    by_cases hc : c = sep
    · rw [splitOnChar, if_pos hc] at hx
      rcases List.mem_cons.mp hx with h | h
      · simp [h]
      · exact not_mem_of_mem_splitOnChar h
    · rw [splitOnChar, if_neg hc] at hx
      cases hsp : splitOnChar sep r with
      | nil => exact absurd hsp (splitOnChar_ne_nil sep r)
      | cons a t =>
        rw [hsp] at hx
        rcases List.mem_cons.mp hx with h | h
        · subst h
          intro hmem
          rcases List.mem_cons.mp hmem with h2 | h2
          · exact hc h2.symm
          · have ha : a ∈ splitOnChar sep r := by rw [hsp]; simp
            exact not_mem_of_mem_splitOnChar ha h2
        · have ht : x ∈ splitOnChar sep r := by rw [hsp]; simp [h]
          exact not_mem_of_mem_splitOnChar ht

/-- Characters of a `split` component come from the original list. -/
theorem mem_of_mem_splitOnChar {sep c : Char} :
    ∀ {l x}, x ∈ splitOnChar sep l → c ∈ x → c ∈ l
  | [], x, hx, hc => by
    simp [splitOnChar] at hx
    subst hx
    simp at hc
  | d :: r, x, hx, hc => by
    by_cases hd : d = sep
    · rw [splitOnChar, if_pos hd] at hx
      rcases List.mem_cons.mp hx with h | h
      · subst h; simp at hc
      · exact List.mem_cons_of_mem d (mem_of_mem_splitOnChar h hc)
    · rw [splitOnChar, if_neg hd] at hx
      cases hsp : splitOnChar sep r with
      | nil => exact absurd hsp (splitOnChar_ne_nil sep r)
      | cons a t =>
        rw [hsp] at hx
        rcases List.mem_cons.mp hx with h | h
        · subst h
          rcases List.mem_cons.mp hc with h2 | h2
          · simp [h2]
          · have ha : a ∈ splitOnChar sep r := by rw [hsp]; simp
            exact List.mem_cons_of_mem d (mem_of_mem_splitOnChar ha h2)
        · have ht : x ∈ splitOnChar sep r := by rw [hsp]; simp [h]
          exact List.mem_cons_of_mem d (mem_of_mem_splitOnChar ht hc)

theorem splitOnChar_append_sep {sep : Char} :
    ∀ {x}, sep ∉ x → ∀ z, splitOnChar sep (x ++ sep :: z) = x :: splitOnChar sep z
  | [], _, z => by simp [splitOnChar]
  | c :: x', h, z => by
    have hc : ¬ c = sep := fun he => h (he ▸ List.mem_cons_self c x')
    have hx' : sep ∉ x' := fun hm => h (List.mem_cons_of_mem c hm)
    have ih := splitOnChar_append_sep hx' z
    simp [splitOnChar, hc, ih]

/-- Splitting undoes joining when the components are separator-free. -/
theorem splitOnChar_joinChar {sep : Char} :
    ∀ {ps : List (List Char)}, ps ≠ [] → (∀ x ∈ ps, sep ∉ x) →
      splitOnChar sep (joinChar sep ps) = ps
  | [], h, _ => absurd rfl h
  | [x], _, hs => by
    simpa [joinChar] using splitOnChar_no_sep (hs x (by simp))
  | x :: y :: t, _, hs => by
    have hx : sep ∉ x := hs x (by simp)
    have ih := @splitOnChar_joinChar sep (y :: t) (by simp)
      (fun a ha => hs a (by simp [List.mem_cons.mp ha]))
    calc splitOnChar sep (joinChar sep (x :: y :: t))
        = splitOnChar sep (x ++ sep :: joinChar sep (y :: t)) := by rw [joinChar]
      _ = x :: splitOnChar sep (joinChar sep (y :: t)) := splitOnChar_append_sep hx _
      _ = x :: y :: t := by rw [ih]

/-- A character distinct from the separator and absent from every
component is absent from the join. -/
theorem not_mem_joinChar {sep c : Char} (hc : c ≠ sep) :
    ∀ {ps}, (∀ x ∈ ps, c ∉ x) → c ∉ joinChar sep ps
  | [], _ => by simp [joinChar]
  | [x], h => by simpa [joinChar] using h x (by simp)
  | x :: y :: t, h => by
    rw [joinChar]
    intro hmem
    rcases List.mem_append.mp hmem with h2 | h2
    · exact h x (by simp) h2
    · rcases List.mem_cons.mp h2 with h3 | h3
      · exact hc h3
      · exact not_mem_joinChar hc (fun a ha => h a (by simp [List.mem_cons.mp ha])) h3

/-- The code's N-field value (`line.split(':')[1]`) never contains a
colon. -/
theorem not_colon_mem_nValueL (l : List Char) : ':' ∉ nValueL l := by
  unfold nValueL
  cases hsp : splitOnChar ':' l with
  | nil => simp
  | cons a t =>
    cases t with
    | nil => simp
    | cons b t2 =>
      have hb : b ∈ splitOnChar ':' l := by rw [hsp]; simp
      have h2 := not_mem_of_mem_splitOnChar hb
      simpa using h2

/-- Dropping trailing empty components keeps a subset of the
components. -/
theorem mem_of_mem_dropTrailingEmptyL {ps : List (List Char)} {x : List Char}
    (h : x ∈ dropTrailingEmptyL ps) : x ∈ ps := by
  unfold dropTrailingEmptyL at h
  rw [List.mem_reverse] at h
  have h2 := (List.dropWhile_sublist _).mem h
  rwa [List.mem_reverse] at h2

/-- C7 (amended): the emitted `N` line's value has its trailing empty
components dropped and is padded with empty components up to 5; when
more than 5 components remain after the trailing trim, all of them are
kept, so the emitted component count is the maximum of 5 and the
trimmed count. -/
theorem c7_n_pad (line : String) (h : pyStartsWith line "N:" = true) :
    (nCompsOf (nPad line)).length =
      max 5 (dropTrailingEmptyL (nCompsOf line)).length := by
  have hps : ∀ x ∈ dropTrailingEmptyL (nCompsOf line), ';' ∉ x := by
    intro x hx
    exact not_mem_of_mem_splitOnChar (mem_of_mem_dropTrailingEmptyL hx)
  have hcol : ∀ x ∈ dropTrailingEmptyL (nCompsOf line), ':' ∉ x := by
    intro x hx hmem
    exact not_colon_mem_nValueL line.data
      (mem_of_mem_splitOnChar (mem_of_mem_dropTrailingEmptyL hx) hmem)
  set ps := dropTrailingEmptyL (nCompsOf line) with hps_def
  set padded := ps ++ List.replicate (5 - ps.length) ([] : List Char) with hpad
  have hpadSemi : ∀ x ∈ padded, ';' ∉ x := by
    intro x hx
    rcases List.mem_append.mp hx with h2 | h2
    · exact hps x h2
    · rw [List.eq_of_mem_replicate h2]; simp
  have hpadCol : ∀ x ∈ padded, ':' ∉ x := by
    intro x hx
    rcases List.mem_append.mp hx with h2 | h2
    · exact hcol x h2
    · rw [List.eq_of_mem_replicate h2]; simp
  have hpadne : padded ≠ [] := by
    have hlen : padded.length = ps.length + (5 - ps.length) := by
      simp [hpad]
    intro he
    rw [he] at hlen
    simp at hlen
    omega
  have hJcol : ':' ∉ joinChar ';' padded :=
    not_mem_joinChar (by decide) hpadCol
  have hdata : (nPad line).data = 'N' :: ':' :: joinChar ';' padded := by
    simp [nPad, hpad, hps_def]
  have hval : nValueL (nPad line).data = joinChar ';' padded := by
    rw [hdata]
    exact nValueL_eq hJcol
  have hsplit : nCompsOf (nPad line) = padded := by
    unfold nCompsOf
    rw [hval]
    exact splitOnChar_joinChar hpadne hpadSemi
  rw [hsplit, hpad]
  simp only [List.length_append, List.length_replicate]
  omega

/-- C7 witness: the spec's example `N:Smith;;;;;;` (one component after
trailing trim) is emitted with exactly 5 components. -/
theorem c7_witness :
    pyStartsWith "N:Smith;;;;;;" "N:" = true ∧
    (nCompsOf (nPad "N:Smith;;;;;;")).length =
      max 5 (dropTrailingEmptyL (nCompsOf "N:Smith;;;;;;")).length :=
  ⟨by decide, c7_n_pad "N:Smith;;;;;;" (by decide)⟩

/-- Insertion after the first version line succeeds whenever some line
starts with `VERSION:`. -/
theorem insertAfterVersion_isSome :
    ∀ {l : List String}, (∃ x ∈ l, pyStartsWith x "VERSION:" = true) →
      (insertAfterVersion l).isSome = true
  | [], h => by simp at h
  | a :: t, h => by
    by_cases ha : pyStartsWith a "VERSION:" = true
    · simp [insertAfterVersion, ha]
    · obtain ⟨x, hx, hxv⟩ := h
      rcases List.mem_cons.mp hx with h1 | h1
      · subst h1; exact absurd hxv ha
      · have ih := insertAfterVersion_isSome ⟨x, h1, hxv⟩
        rw [insertAfterVersion, if_neg ha]
        cases hio : insertAfterVersion t with
        | none => rw [hio] at ih; simp at ih
        | some r => simp

/-- The record loop finishes normally when every record classified as
an organization emits a version line. -/
theorem processCards_isSome (st : Settings) :
    ∀ cs : List (List String),
      (∀ c ∈ cs, isOrg (cardLines c) = true →
        (runLines st false (cardLines c)).any (pyStartsWith · "VERSION:") = true) →
      (processCards st cs).isSome = true
  | [], _ => rfl
  | c :: cs, h => by
    have ihtail := processCards_isSome st cs fun x hx hx2 =>
      h x (List.mem_cons_of_mem c hx) hx2
    by_cases hb : pyStrip (renderCard c) = ""
    · simpa [processCards, hb] using ihtail
    · have htv : (transformVcard st (cardLines c)).isSome = true := by
        simp only [transformVcard]
        by_cases ho : isOrg (cardLines c) = true
        · have hins : (insertAfterVersion
              ("BEGIN:VCARD" :: runLines st false (cardLines c))).isSome = true := by
            have hany := h c (List.mem_cons_self c cs) ho
            rw [List.any_eq_true] at hany
            obtain ⟨x, hx, hxv⟩ := hany
            exact insertAfterVersion_isSome ⟨x, List.mem_cons_of_mem _ hx, hxv⟩
          rw [if_pos ho]
          cases hio : insertAfterVersion
              ("BEGIN:VCARD" :: runLines st false (cardLines c)) with
          | none => rw [hio] at hins; simp at hins
          | some nl2 => simp
        · rw [if_neg ho]
          simp
      rw [processCards, if_neg hb]
      cases htv2 : transformVcard st (cardLines c) with
      | none => rw [htv2] at htv; simp at htv
      | some nl =>
        cases hpc : processCards st cs with
        | none => rw [hpc] at ihtail; simp at ihtail
        | some rest => simp

/-- C1 (amended): the conversion terminates normally and returns a
string on every input in which each record classified as an
organization emits a version line during the rewrite pass; inputs with
an organization record but no version line make `next(...)` at line 158
raise, so the unconditional claim fails. -/
theorem c1_totality (input : String) (st : Settings)
    (h : ∀ c ∈ splitVcards input, isOrg (cardLines c) = true →
      (runLines st false (cardLines c)).any (pyStartsWith · "VERSION:") = true) :
    (convert_vcard_3_to_4 input st).isSome = true := by
  unfold convert_vcard_3_to_4
  have hs := processCards_isSome st (splitVcards input) h
  cases hp : processCards st (splitVcards input) with
  | none => rw [hp] at hs; simp at hs
  | some blocks => simp

/-- C1 witness: the conversion succeeds on a concrete organization
record that does carry a version line. -/
theorem c1_witness :
    (convert_vcard_3_to_4
      "BEGIN:VCARD\nVERSION:3.0\nX-ABShowAs:COMPANY\nEND:VCARD"
      ⟨true, true⟩).isSome = true :=
  c1_totality _ _ (by decide)

/-- Successful insertion decomposes the list around the first version
line. -/
theorem insertAfterVersion_decomp :
    ∀ {l r : List String}, insertAfterVersion l = some r →
      ∃ pre v post, l = pre ++ v :: post ∧
        r = pre ++ v :: "KIND:org" :: post ∧
        pyStartsWith v "VERSION:" = true ∧
        ∀ u ∈ pre, pyStartsWith u "VERSION:" = false
  | [], r, h => by simp [insertAfterVersion] at h
  | a :: t, r, h => by
    by_cases ha : pyStartsWith a "VERSION:" = true
    · rw [insertAfterVersion, if_pos ha] at h
      injection h with h1
      exact ⟨[], a, t, by simp, by simp [← h1], ha, by simp⟩
    · rw [insertAfterVersion, if_neg ha] at h
      cases hio : insertAfterVersion t with
      | none => rw [hio] at h; exact absurd h (by simp)
      | some r' =>
        rw [hio] at h
        injection h with h1
        obtain ⟨pre, v, post, e1, e2, hv, hpre⟩ := insertAfterVersion_decomp hio
        refine ⟨a :: pre, v, post, by simp [e1], by simp [← h1, e2], hv, ?_⟩
        intro u hu
        rcases List.mem_cons.mp hu with h2 | h2
        · subst h2; simpa using ha
        · exact hpre u h2

/-- The index search lands on the head of the matching suffix when nothing
before it matches. -/
theorem findIdx_append_of_none {α : Type} (p : α → Bool) (v : α) (rest : List α)
    (hv : p v = true) :
    ∀ pre : List α, (∀ u ∈ pre, p u = false) →
      List.findIdx p (pre ++ v :: rest) = pre.length
  | [], _ => by simp [List.findIdx_cons, hv]
  | a :: pre, h => by
    have ha : p a = false := h a (List.mem_cons_self a pre)
    have ih := findIdx_append_of_none p v rest hv pre
      fun u hu => h u (List.mem_cons_of_mem a hu)
    simp [List.findIdx_cons, ha, ih]

/-- C6 (amended): a record carrying `X-ABShowAs:COMPANY` is always
classified as an organization; whenever the transformation completes
and the per-line pass itself emits no `KIND:org` line, the output block
contains exactly one `KIND:org`, placed immediately after the (first)
version line.  (A record already containing a `KIND:org` line keeps it
and receives a second one.) -/
theorem c6_kind_org (st : Settings) (lines : List String)
    (h1 : "X-ABShowAs:COMPANY" ∈ lines) :
    isOrg lines = true ∧
    ∀ out, transformVcard st lines = some out →
      "KIND:org" ∉ runLines st false lines →
      out.count "KIND:org" = 1 ∧
      pyStartsWith
        (out.getD (List.findIdx (fun u => pyStartsWith u "VERSION:") out) "")
        "VERSION:" = true ∧
      out[List.findIdx (fun u => pyStartsWith u "VERSION:") out + 1]? =
        some "KIND:org" := by
  have horg : isOrg lines = true := by
    have hshow : hasShowAs lines = true := by
      rw [hasShowAs, List.any_eq_true]
      exact ⟨_, h1, by decide⟩
    simp [isOrg, hshow]
  refine ⟨horg, fun out hout hnot => ?_⟩
  rw [transformVcard] at hout
  simp only [if_pos horg] at hout
  cases hins : insertAfterVersion ("BEGIN:VCARD" :: runLines st false lines) with
  | none => rw [hins] at hout; exact absurd hout (by simp)
  | some nl2 =>
    rw [hins] at hout
    injection hout with hout1
    obtain ⟨pre, v, post, e1, e2, hv, hpre⟩ := insertAfterVersion_decomp hins
    have hKnl : "KIND:org" ∉ ("BEGIN:VCARD" :: runLines st false lines) := by
      intro hm
      rcases List.mem_cons.mp hm with h2 | h2
      · exact absurd h2 (by decide)
      · exact hnot h2
    rw [e1] at hKnl
    have hKpre : "KIND:org" ∉ pre := fun hm => hKnl (List.mem_append_left _ hm)
    have hKv : ¬ (("KIND:org" : String) = v) := by
      intro he
      exact hKnl (List.mem_append_right _ (he ▸ List.mem_cons_self v post))
    have hKpost : "KIND:org" ∉ post := fun hm =>
      hKnl (List.mem_append_right _ (List.mem_cons_of_mem v hm))
    -- the output either keeps `nl2` or appends the end marker
    have hsplit : ∃ post2, out = pre ++ v :: "KIND:org" :: post2 ∧
        "KIND:org" ∉ post2 := by
      by_cases hend : pyStartsWith (nl2.getLastD "") "END:VCARD" = true
      · rw [if_pos hend] at hout1
        exact ⟨post, by rw [← hout1, e2], hKpost⟩
      · rw [if_neg hend] at hout1
        refine ⟨post ++ ["END:VCARD"], by rw [← hout1, e2]; simp, ?_⟩
        intro hm
        rcases List.mem_append.mp hm with h2 | h2
        · exact hKpost h2
        · simp at h2

    obtain ⟨post2, hdec, hKpost2⟩ := hsplit
    have hcount : out.count "KIND:org" = 1 := by
      rw [hdec]
      simp [List.count_append, List.count_cons, List.count_eq_zero.mpr hKpre,
        List.count_eq_zero.mpr hKpost2, hKv]
    have hidx : List.findIdx (fun u => pyStartsWith u "VERSION:") out =
        pre.length := by
      rw [hdec]
      exact findIdx_append_of_none _ v _ hv pre hpre
    refine ⟨hcount, ?_, ?_⟩
    · rw [hidx, hdec]
      have h9 : (pre ++ v :: "KIND:org" :: post2)[pre.length]? =
          (v :: "KIND:org" :: post2)[pre.length - pre.length]? :=
        List.getElem?_append_right (Nat.le_refl _)
      simp at h9
      simp [List.getD_eq_getElem?_getD, h9, hv]
    · rw [hidx, hdec]
      have h9 : (pre ++ v :: "KIND:org" :: post2)[pre.length + 1]? =
          (v :: "KIND:org" :: post2)[pre.length + 1 - pre.length]? :=
        List.getElem?_append_right (Nat.le_add_right _ _)
      simp at h9
      simp [h9]

/-- C6 witness: a concrete marked record receives exactly one
`KIND:org` right after its version line. -/
theorem c6_witness :
    "X-ABShowAs:COMPANY" ∈
      ["BEGIN:VCARD", "VERSION:3.0", "X-ABShowAs:COMPANY", "END:VCARD"] ∧
    isOrg ["BEGIN:VCARD", "VERSION:3.0", "X-ABShowAs:COMPANY", "END:VCARD"] = true ∧
    (["BEGIN:VCARD", "VERSION:4.0", "KIND:org", "END:VCARD"].count "KIND:org" = 1 ∧
      pyStartsWith
        (["BEGIN:VCARD", "VERSION:4.0", "KIND:org", "END:VCARD"].getD
          (List.findIdx (fun u => pyStartsWith u "VERSION:")
            ["BEGIN:VCARD", "VERSION:4.0", "KIND:org", "END:VCARD"]) "")
        "VERSION:" = true ∧
      ["BEGIN:VCARD", "VERSION:4.0", "KIND:org",
        "END:VCARD"][List.findIdx (fun u => pyStartsWith u "VERSION:")
          ["BEGIN:VCARD", "VERSION:4.0", "KIND:org", "END:VCARD"] + 1]? =
        some "KIND:org") :=
  ⟨by decide,
    (c6_kind_org ⟨true, true⟩ _ (by decide)).1,
    (c6_kind_org ⟨true, true⟩
        ["BEGIN:VCARD", "VERSION:3.0", "X-ABShowAs:COMPANY", "END:VCARD"]
        (by decide)).2
      ["BEGIN:VCARD", "VERSION:4.0", "KIND:org", "END:VCARD"]
      (by decide) (by decide)⟩

/-! ### No rewrite manufactures an `END:VCARD` prefix (for C9) -/

/-- A replacement word `w` that is prefix-incomparable with every
non-empty suffix of the end marker cannot start one. -/
theorem no_end_of_append {w : List Char}
    (hw : ∀ q ∈ endTails, q ≠ [] → ¬ (q <+: w) ∧ ¬ (w <+: q)) :
    ∀ p ∈ endTails, p ≠ [] → ∀ X : List Char,
      p.isPrefixOf (w ++ X) = false := by
  intro p hmem hne X
  by_contra hcon
  rw [Bool.not_eq_false, List.isPrefixOf_iff_prefix] at hcon
  have h2 : w <+: w ++ X := List.prefix_append w X
  rcases List.prefix_or_prefix_of_prefix hcon h2 with h5 | h5
  · exact (hw p hmem hne).1 h5
  · exact (hw p hmem hne).2 h5

/-- The item-group matcher always replaces with its word. -/
theorem stepItem_rep {w s : List Char} {r : List Char × List Char}
    (h : stepItem w s = some r) : r.1 = w := by
  unfold stepItem at h
  repeat split at h
  all_goals simp at h
  all_goals rw [← h]

/-- The telephone-parameter matcher always replaces with `TYPE=`
followed by its group. -/
theorem stepTypeEq_rep {s : List Char} {r : List Char × List Char}
    (h : stepTypeEq s = some r) : ∃ g, r.1 = "TYPE=".data ++ g := by
  unfold stepTypeEq at h
  repeat split at h
  all_goals simp at h
  all_goals exact ⟨_, by rw [← h.2]; rfl⟩

/-- Scanning and replacing cannot create a prefix that is a non-empty
suffix of the end marker, provided no replacement can start one. -/
theorem reSubAux_no_end
    (step : List Char → Option (List Char × List Char))
    (hstep : ∀ s rep rem, step s = some (rep, rem) →
      ∀ p ∈ endTails, p ≠ [] → ∀ X : List Char,
        p.isPrefixOf (rep ++ X) = false) :
    ∀ (fuel : Nat) (s p : List Char), p ∈ endTails → p ≠ [] →
      p.isPrefixOf s = false → p.isPrefixOf (reSubAux step fuel s) = false := by
  intro fuel
  induction fuel with
  | zero => intro s p _ _ h; simpa [reSubAux] using h
  | succ n ih =>
    intro s p hmem hne h
    cases s with
    | nil => simpa [reSubAux] using h
    | cons c rest =>
      cases hst : step (c :: rest) with
      | some pr =>
        obtain ⟨rep, rem⟩ := pr
        have hres : reSubAux step (n + 1) (c :: rest) =
            rep ++ reSubAux step n rem := by
          simp [reSubAux, hst]
        rw [hres]
        exact hstep _ rep rem hst p hmem hne _
      | none =>
        have hres : reSubAux step (n + 1) (c :: rest) =
            c :: reSubAux step n rest := by
          simp [reSubAux, hst]
        rw [hres]
        cases p with
        | nil => exact absurd rfl hne
        | cons a p2 =>
          by_cases hac : a = c
          · subst hac
            have hp2 : p2.isPrefixOf rest = false := by
              by_contra hcon
              rw [Bool.not_eq_false] at hcon
              simp [List.isPrefixOf_cons₂, hcon] at h
            cases p2 with
            | nil => simp at hp2
            | cons b q =>
              have hmem2 : (b :: q) ∈ endTails := by
                have hcl : ∀ x ∈ endTails, x.tail ∈ endTails := by decide
                have h6 := hcl (a :: b :: q) hmem
                simpa using h6
              have h7 := ih rest (b :: q) hmem2 (by simp) hp2
              simp [List.isPrefixOf_cons₂, h7]
          · simp [List.isPrefixOf_cons₂, hac]

/-- No item-group rewrite creates an end-marker prefix. -/
theorem subItem_no_end {w : List Char}
    (hw : ∀ q ∈ endTails, q ≠ [] → ¬ (q <+: w) ∧ ¬ (w <+: q))
    {l : String} (h : pyStartsWith l "END:VCARD" = false) :
    pyStartsWith (reSub (stepItem w) l) "END:VCARD" = false := by
  have hstep : ∀ s rep rem, stepItem w s = some (rep, rem) →
      ∀ p ∈ endTails, p ≠ [] → ∀ X : List Char,
        p.isPrefixOf (rep ++ X) = false := by
    intro s rep rem hsome p hmem hne X
    have hrep : rep = w := stepItem_rep hsome
    subst hrep
    exact no_end_of_append hw p hmem hne X
  exact reSubAux_no_end (stepItem w) hstep _ _ _ (by decide) (by decide) h

theorem subItemAdr_no_end {l : String} (h : pyStartsWith l "END:VCARD" = false) :
    pyStartsWith (subItemAdr l) "END:VCARD" = false :=
  subItem_no_end (by decide) h

theorem subItemUrl_no_end {l : String} (h : pyStartsWith l "END:VCARD" = false) :
    pyStartsWith (subItemUrl l) "END:VCARD" = false :=
  subItem_no_end (by decide) h

/-- No `type=` rewrite creates an end-marker prefix. -/
theorem subTypeEq_no_end {l : String} (h : pyStartsWith l "END:VCARD" = false) :
    pyStartsWith (subTypeEq l) "END:VCARD" = false := by
  have hstep : ∀ s rep rem, stepTypeEq s = some (rep, rem) →
      ∀ p ∈ endTails, p ≠ [] → ∀ X : List Char,
        p.isPrefixOf (rep ++ X) = false := by
    intro s rep rem hsome p hmem hne X
    obtain ⟨g, hg⟩ := stepTypeEq_rep hsome
    simp only at hg
    subst hg
    rw [List.append_assoc]
    refine no_end_of_append ?_ p hmem hne (g ++ X)
    decide
  exact reSubAux_no_end stepTypeEq hstep _ _ _ (by decide) (by decide) h

/-- The rebuilt `N` line starts with `N`, never with the end marker. -/
theorem nPad_no_end (x : String) :
    pyStartsWith (nPad x) "END:VCARD" = false := by
  simp [pyStartsWith, nPad, List.isPrefixOf_cons₂]

theorem no_end_ite (c : Prop) [Decidable c] {f g : String}
    (hf : pyStartsWith f "END:VCARD" = false)
    (hg : pyStartsWith g "END:VCARD" = false) :
    pyStartsWith (if c then f else g) "END:VCARD" = false := by
  split
  · exact hf
  · exact hg

/-- The cumulative per-line rewrites preserve "does not start with the
end marker". -/
theorem applyRewrites_no_end {l : String}
    (h : pyStartsWith l "END:VCARD" = false) :
    pyStartsWith (applyRewrites l) "END:VCARD" = false := by
  unfold applyRewrites
  set l1 := if strContains l "ADR" = true then subTypeEq (subItemAdr l) else l
    with hl1
  set l2 := if pyStartsWith l1 "TEL;" = true then subTypeEq l1 else l1 with hl2
  set l3 := if pyStartsWith l2 "EMAIL;" = true then subTypeEq l2 else l2
    with hl3
  set l4 := if pyStartsWith l3 "item" = true then subItemUrl l3 else l3
    with hl4
  have h1 : pyStartsWith l1 "END:VCARD" = false := by
    rw [hl1]
    exact no_end_ite _ (subTypeEq_no_end (subItemAdr_no_end h)) h
  have h2 : pyStartsWith l2 "END:VCARD" = false := by
    rw [hl2]
    exact no_end_ite _ (subTypeEq_no_end h1) h1
  have h3 : pyStartsWith l3 "END:VCARD" = false := by
    rw [hl3]
    exact no_end_ite _ (subTypeEq_no_end h2) h2
  have h4 : pyStartsWith l4 "END:VCARD" = false := by
    rw [hl4]
    exact no_end_ite _ (subItemUrl_no_end h3) h3
  exact no_end_ite _ (nPad_no_end l4) h4

/-- Every line the per-line pass emits is either the rewritten version
line or the cumulative rewrite of the input line. -/
theorem lineStep_emit {st : Settings} {skip : Bool} {l : String}
    {s2 : Bool} {o : String} (h : lineStep st skip l = (s2, some o)) :
    o = "VERSION:4.0" ∨ o = applyRewrites l := by
  unfold lineStep at h
  repeat' split at h
  all_goals try simp only [] at h
  repeat' split at h
  all_goals simp at h
  all_goals first
    | exact Or.inl h.2.symm
    | exact Or.inr h.2.symm

/-- Lines emitted by the pass never start with the end marker when no
input line does. -/
theorem runLines_no_end (st : Settings) :
    ∀ (skip : Bool) (ls : List String),
      (∀ x ∈ ls, pyStartsWith x "END:VCARD" = false) →
      ∀ o ∈ runLines st skip ls, pyStartsWith o "END:VCARD" = false
  | _, [], _, o, ho => by simp [runLines] at ho
  | skip, l :: ls, h, o, ho => by
    rw [runLines] at ho
    cases hst : lineStep st skip l with
    | mk s2 oo =>
      rw [hst] at ho
      cases oo with
      | none =>
        exact runLines_no_end st s2 ls
          (fun x hx => h x (List.mem_cons_of_mem l hx)) o ho
      | some e =>
        rcases List.mem_cons.mp ho with h2 | h2
        · subst h2
          rcases lineStep_emit hst with h3 | h3
          · rw [h3]; decide
          · rw [h3]
            exact applyRewrites_no_end (h l (List.mem_cons_self l ls))
        · exact runLines_no_end st s2 ls
            (fun x hx => h x (List.mem_cons_of_mem l hx)) o h2

/-- Insertion only adds the `KIND:org` line. -/
theorem mem_insertAfterVersion {l r : List String} {x : String}
    (h : insertAfterVersion l = some r) (hx : x ∈ r) :
    x = "KIND:org" ∨ x ∈ l := by
  obtain ⟨pre, v, post, e1, e2, _, _⟩ := insertAfterVersion_decomp h
  subst e1 e2
  rcases List.mem_append.mp hx with h2 | h2
  · exact Or.inr (List.mem_append_left _ h2)
  · rcases List.mem_cons.mp h2 with h3 | h3
    · exact Or.inr (List.mem_append_right _ (h3 ▸ List.mem_cons_self v post))
    · rcases List.mem_cons.mp h3 with h4 | h4
      · exact Or.inl h4
      · exact Or.inr (List.mem_append_right _ (List.mem_cons_of_mem v h4))

/-- C9 counterexample: a record block that begins with the begin
marker and lacks a terminating end marker on which the conversion
produces no transformed block at all: the record is classified as an
organization and has no version line, so the insertion step raises
instead of producing a block ending in the terminator, refuting the
claim that such a block is always produced. -/
theorem c9_counterexample :
    pyStartsWith "BEGIN:VCARD" "BEGIN:VCARD" = true ∧
    (["BEGIN:VCARD", "X-ABShowAs:COMPANY"].all
      (fun l => !pyStartsWith l "END:VCARD")) = true ∧
    transformVcard ⟨true, true⟩ ["BEGIN:VCARD", "X-ABShowAs:COMPANY"] = none := by
  decide

/-- C9 (amended): a record none of whose lines starts with `END:VCARD`
(in particular one lacking a terminating end marker) yields, whenever
the transformation completes, a block whose final line is exactly the
synthesized `END:VCARD`.  (Completion can fail: an organization record
with no version line raises and produces no block.) -/
theorem c9_end_synthesized (st : Settings) (lines out : List String)
    (h1 : ∀ l ∈ lines, pyStartsWith l "END:VCARD" = false)
    (h2 : transformVcard st lines = some out) :
    out.getLast? = some "END:VCARD" := by
  have hfin : ∀ nl2 : List String, (∀ x ∈ nl2, pyStartsWith x "END:VCARD" = false) →
      (if pyStartsWith (nl2.getLastD "") "END:VCARD" = true then nl2
       else nl2 ++ ["END:VCARD"]).getLast? = some "END:VCARD" := by
    intro nl2 hno
    cases nl2 with
    | nil => simp [pyStartsWith, List.isPrefixOf]
    | cons a t =>
      have hmem : (a :: t).getLastD "" ∈ a :: t := by
        rw [List.getLastD_cons]
        exact List.getLastD_mem_cons t a
      have hlast := hno _ hmem
      rw [if_neg (by rw [hlast]; simp)]
      exact List.getLast?_concat _
  have hnl : ∀ x ∈ ("BEGIN:VCARD" :: runLines st false lines),
      pyStartsWith x "END:VCARD" = false := by
    intro x hx
    rcases List.mem_cons.mp hx with h3 | h3
    · subst h3; decide
    · exact runLines_no_end st false lines h1 x h3
  rw [transformVcard] at h2
  by_cases horg : isOrg lines = true
  · simp only [if_pos horg] at h2
    cases hins : insertAfterVersion ("BEGIN:VCARD" :: runLines st false lines) with
    | none => rw [hins] at h2; exact absurd h2 (by simp)
    | some nl2 =>
      rw [hins] at h2
      injection h2 with h3
      rw [← h3]
      refine hfin nl2 ?_
      intro x hx
      rcases mem_insertAfterVersion hins hx with h4 | h4
      · subst h4; decide
      · exact hnl x h4
  · simp only [if_neg horg] at h2
    injection h2 with h3
    rw [← h3]
    exact hfin _ hnl

/-- C9 witness: a concrete record with a begin marker and no end marker
is transformed into a block ending in the synthesized terminator. -/
theorem c9_witness :
    (∀ l ∈ ["BEGIN:VCARD", "VERSION:3.0", "FN:x"],
        pyStartsWith l "END:VCARD" = false) ∧
    (["BEGIN:VCARD", "VERSION:4.0", "END:VCARD"] : List String).getLast? =
      some "END:VCARD" :=
  ⟨by decide,
    c9_end_synthesized ⟨true, true⟩ ["BEGIN:VCARD", "VERSION:3.0", "FN:x"]
      ["BEGIN:VCARD", "VERSION:4.0", "END:VCARD"] (by decide) (by decide)⟩

end VCard
